import Mathlib

set_option autoImplicit false

namespace ShadowReth

/-!
Shallow embedding of the shadow-reth shadow-execution pipeline.

Conventions used throughout:
* 20-byte account addresses, 32-byte words and hashes are modelled as `Nat`
  (`Address`, `B256`), byte strings as `List Nat` (`Bytecode`).
* A lowercase `0x`-prefixed hex string is modelled by the list of its base-16
  digits, little-endian (`HexString`); the `0x` marker carries no information
  and the digit list is in bijection with the string, so string operations on
  rendered hex (`to_lower_hex`, `parse`, slicing past `0x`) become operations
  on the digit list.
* Provider (historical state snapshot) reads are `Except`-valued, mirroring
  reth's `ProviderResult`; I/O failure is an abstract error payload.
-/

abbrev Address := Nat

abbrev B256 := Nat

abbrev Bytecode := List Nat

abbrev HexString := List Nat

/-- Keccak-256 of the empty byte string, `reth_primitives::KECCAK_EMPTY`. -/
def KECCAK_EMPTY : B256 := 0xc5d2460186f7233c927e7db2dcc703c0e500b653ca82273b7bfad8045d85a470

/-- Model of `to_lower_hex` for a `w`-digit value: the base-16 digit list of `v`,
zero-padded to width `w` (a 20-byte address renders as 40 hex digits, a 32-byte
word as 64). -/
def toLowerHexW (w : Nat) (v : Nat) : HexString :=
  Nat.digits 16 v ++ List.replicate (w - (Nat.digits 16 v).length) 0

/-- `to_lower_hex` of a 20-byte address. -/
def toLowerHex40 (a : Address) : HexString := toLowerHexW 40 a

/-- `to_lower_hex` of a 32-byte word. -/
def toLowerHex64 (h : B256) : HexString := toLowerHexW 64 h

/-- Model of parsing a fixed-width hex string back into its value (`str::parse`
on addresses and `from_str` on 32-byte words): succeeds exactly on well-formed
`w`-digit strings. -/
def parseHexW (w : Nat) (s : HexString) : Option Nat :=
  if s.length = w ∧ ∀ d ∈ s, d < 16 then some (Nat.ofDigits 16 s) else none

/-- `String::parse::<Address>` on a hex string model. -/
def parseAddress (s : HexString) : Option Address := parseHexW 40 s

/-- `B256::from_str` on a hex string model. -/
def parseB256 (s : HexString) : Option B256 := parseHexW 64 s

theorem ofDigits_replicate_zero (b n : Nat) : Nat.ofDigits b (List.replicate n 0) = 0 := by
  induction n with
  | zero => simp [Nat.ofDigits]
  | succ k ih => simp [List.replicate_succ, Nat.ofDigits_cons, ih]

/-- Round trip: rendering a value in range as lowercase hex and parsing it back
recovers the value. -/
theorem parseHexW_toLowerHexW (w v : Nat) (hv : v < 16 ^ w) :
    parseHexW w (toLowerHexW w v) = some v := by
  have hb : 1 < 16 := by norm_num
  have hlen : (Nat.digits 16 v).length ≤ w := by
    rcases Nat.eq_zero_or_pos v with h0 | hpos
    · subst h0; simp
    · rw [Nat.digits_len 16 v hb hpos.ne']
      have := (Nat.lt_pow_iff_log_lt hb hpos.ne').mp hv
      omega
  have hlen' : (toLowerHexW w v).length = w := by
    simp [toLowerHexW, Nat.add_sub_cancel' hlen]
  have hdig : ∀ d ∈ toLowerHexW w v, d < 16 := by
    intro d hd
    rcases List.mem_append.mp hd with h | h
    · exact Nat.digits_lt_base hb h
    · have := List.eq_of_mem_replicate h
      omega
  have hval : Nat.ofDigits 16 (toLowerHexW w v) = v := by
    rw [toLowerHexW, Nat.ofDigits_append, ofDigits_replicate_zero,
      Nat.ofDigits_digits]
    ring
  simp only [parseHexW]
  rw [if_pos ⟨hlen', hdig⟩, hval]

theorem parseAddress_toLowerHex40 (a : Address) (ha : a < 16 ^ 40) :
    parseAddress (toLowerHex40 a) = some a :=
  parseHexW_toLowerHexW 40 a ha

/-! ### Shadow Contract Set (`crates/exex/src/contracts.rs`) -/

/-- `ShadowContracts`: the map of addresses to shadow bytecode and the map of
addresses to precomputed code hashes. The `HashMap`s are modelled as
association lists (key uniqueness, where needed, is an explicit hypothesis). -/
structure ShadowContracts where
  contracts : List (Address × Bytecode)
  code_hashes : List (Address × B256)
  deriving Repr, DecidableEq

/-- Construction of `ShadowContracts` from a parsed config (the tail of
`TryFrom<Value>`): `code_hashes` is derived from `contracts` by hashing each
bytecode with `hash_slow`, modelled by the explicit `hashSlow` argument. -/
def ShadowContracts.ofConfig (hashSlow : Bytecode → B256)
    (entries : List (Address × Bytecode)) : ShadowContracts :=
  { contracts := entries
    code_hashes := entries.map fun p => (p.1, hashSlow p.2) }

/-- `ShadowContracts::code`: the shadow bytecode for the given address, if any. -/
def ShadowContracts.code (s : ShadowContracts) (address : Address) : Option Bytecode :=
  (s.contracts.find? fun p => p.1 == address).map (·.2)

/-- `ShadowContracts::code_hash`: the code hash for a shadow contract at a given
address, if any. -/
def ShadowContracts.code_hash (s : ShadowContracts) (address : Address) : Option B256 :=
  (s.code_hashes.find? fun p => p.1 == address).map (·.2)

/-- `ShadowContracts::code_by_hash`: the shadow bytecode associated with a given
code hash, by scanning `code_hashes` (`find_map`). -/
def ShadowContracts.code_by_hash (s : ShadowContracts) (code_hash : B256) : Option Bytecode :=
  s.code_hashes.findSome? fun p => if p.2 == code_hash then s.code p.1 else none

/-- Modelled from the spec: `is_shadowed(addr) → bool` — membership of the
address in the Shadow Contract Set. The operation is called in
`ShadowExEx::exex` but its definition is not part of the provided sources. -/
def ShadowContracts.is_shadowed (s : ShadowContracts) (address : Address) : Bool :=
  s.contracts.any fun p => p.1 == address

/-! ### Historical state snapshot (external collaborator, reth `StateProvider`) -/

/-- reth `ProviderError`, restricted to the variants this code constructs or
propagates. -/
inductive ProviderError where
  | blockNumberOverflow (number : Nat)
  | ioFailure (code : Nat)
  deriving Repr, DecidableEq

/-- A basic account record as returned by `StateProvider::basic_account`. -/
structure Account where
  balance : Nat
  nonce : Nat
  bytecode_hash : Option B256
  deriving Repr, DecidableEq

/-- Read-only historical state snapshot: the provider interface consumed by
`ShadowDatabase` (an external collaborator; reads may fail with I/O errors). -/
structure StateSnapshot where
  basic_account : Address → Except ProviderError (Option Account)
  block_hash : Nat → Except ProviderError (Option B256)
  bytecode_by_hash : B256 → Except ProviderError (Option Bytecode)

/-! ### Override state adapter (`crates/exex/src/db.rs`) -/

/-- revm `AccountInfo` as constructed by `ShadowDatabase::basic_ref`. -/
structure AccountInfo where
  balance : Nat
  nonce : Nat
  code_hash : B256
  code : Option Bytecode
  deriving Repr, DecidableEq

/-- `ShadowDatabase`: the snapshot plus the Shadow Contract Set. -/
structure ShadowDatabase where
  db : StateSnapshot
  shadow : ShadowContracts

/-- `ShadowDatabase::basic_ref`: propagate the provider result; on a present
account substitute the shadow code hash (falling back to the account's own
bytecode hash, then `KECCAK_EMPTY`) and attach the shadow code. -/
def ShadowDatabase.basic_ref (d : ShadowDatabase) (address : Address) :
    Except ProviderError (Option AccountInfo) :=
  match d.db.basic_account address with
  | .error e => .error e
  | .ok account? => .ok (account?.map fun account =>
      { balance := account.balance
        nonce := account.nonce
        code_hash := (d.shadow.code_hash address).getD (account.bytecode_hash.getD KECCAK_EMPTY)
        code := d.shadow.code address })

/-- `ShadowDatabase::code_by_hash_ref`: the shadow bytecode for the hash if any
shadow address maps to it, else the snapshot's bytecode with provider errors
absorbed (`.ok().flatten().unwrap_or_default()`). -/
def ShadowDatabase.code_by_hash_ref (d : ShadowDatabase) (code_hash : B256) :
    Except ProviderError Bytecode :=
  .ok ((d.shadow.code_by_hash code_hash).getD
    (((d.db.bytecode_by_hash code_hash).toOption.join).getD []))

/-- `ShadowDatabase::block_hash_ref`: fail with `BlockNumberOverflow` when the
requested `U256` number does not fit in a `u64`; otherwise return the
snapshot's hash for it (propagating provider errors), defaulting to the zero
hash. -/
def ShadowDatabase.block_hash_ref (d : ShadowDatabase) (number : Nat) :
    Except ProviderError B256 :=
  if number < 2 ^ 64 then
    match d.db.block_hash number with
    | .error e => .error e
    | .ok h? => .ok (h?.getD 0)
  else
    .error (.blockNumberOverflow number)

/-! ### Shadow log records (`crates/common/src/types.rs`) -/

/-- `ShadowLog`: the synthesized shadow log record. String-typed fields hold
hex-string models (`HexString`); `u64` quantities are modelled as `Nat`. -/
structure ShadowLog where
  address : HexString
  block_hash : HexString
  block_log_index : Nat
  block_number : Nat
  block_timestamp : Nat
  transaction_index : Nat
  transaction_hash : HexString
  transaction_log_index : Nat
  removed : Bool
  data : Option (List Nat)
  topic_0 : Option HexString
  topic_1 : Option HexString
  topic_2 : Option HexString
  topic_3 : Option HexString
  deriving Repr, DecidableEq

/-! ### Block re-executor (`crates/exex/src/execution.rs`) -/

/-- A log emitted by the EVM during execution (revm `Log`): emitting address,
data bytes and up to four topics. -/
structure EvmLog where
  address : Address
  data : List Nat
  topics : List B256
  deriving Repr, DecidableEq

/-- The part of a revm `ExecutionResult` the re-executor consumes: the ordered
logs (`result.into_logs()`). -/
structure ExecutionResult where
  logs : List EvmLog
  deriving Repr, DecidableEq

/-- A signed transaction. `recover_signer` models the outcome of signature
recovery (`None` when the signature is invalid). -/
structure Transaction where
  hash : B256
  recover_signer : Option Address
  deriving Repr, DecidableEq

/-- The block header fields the re-executor touches. -/
structure Header where
  number : Nat
  timestamp : Nat
  difficulty : Nat
  base_fee_per_gas : Option Nat
  deriving Repr, DecidableEq

/-- A block: its header. Transactions are threaded separately
(`BlockWithSenders::into_transactions`). -/
structure Block where
  header : Header
  deriving Repr, DecidableEq

/-- `ExecutedBlock`: the executed block, its canonical hash, and the per
transaction results. `results` is a `HashMap<TransactionSigned,
ExecutionResult>` in the source; it is modelled by the list of its entries in
the map's iteration order, which is unspecified and need not be the canonical
transaction order. -/
structure ExecutedBlock where
  block : Block
  canonical_block_hash : B256
  results : List (Transaction × ExecutionResult)
  deriving Repr, DecidableEq

/-- One synthesized record of `ExecutedBlock::logs`. -/
def synthesizeLog (eb : ExecutedBlock) (transaction_index : Nat)
    (transaction : Transaction) (block_log_index transaction_log_index : Nat)
    (log : EvmLog) : ShadowLog :=
  { address := toLowerHex40 log.address
    block_hash := toLowerHex64 eb.canonical_block_hash
    block_log_index := block_log_index
    block_number := eb.block.header.number
    block_timestamp := eb.block.header.timestamp
    transaction_index := transaction_index
    transaction_hash := toLowerHex64 transaction.hash
    transaction_log_index := transaction_log_index
    removed := false
    data := some log.data
    topic_0 := (log.topics.get? 0).map toLowerHex64
    topic_1 := (log.topics.get? 1).map toLowerHex64
    topic_2 := (log.topics.get? 2).map toLowerHex64
    topic_3 := (log.topics.get? 3).map toLowerHex64 }

/-- The inner `move` closure of `ExecutedBlock::logs`, applied along one
transaction's logs: it increments its own counter before every record. Because
the closure is `move` and `block_log_index : u64` is `Copy`, the counter it
mutates is the closure's private copy of the outer variable, so each
transaction's closure starts from the outer value (0) rather than continuing a
block-wide count. -/
def txLogsGo (eb : ExecutedBlock) (transaction_index : Nat) (transaction : Transaction)
    (counter transaction_log_index : Nat) : List EvmLog → List ShadowLog
  | [] => []
  | log :: rest =>
    synthesizeLog eb transaction_index transaction (counter + 1) transaction_log_index log ::
      txLogsGo eb transaction_index transaction (counter + 1) (transaction_log_index + 1) rest

/-- `ExecutedBlock::logs`: enumerate the results in map-iteration order and
synthesize each transaction's logs in emit order. The outer `block_log_index`
variable is initialized to 0 and never mutated (each inner `move` closure
increments a copy), so every transaction's counter starts from 0. -/
def ExecutedBlock.logs (eb : ExecutedBlock) : List ShadowLog :=
  (eb.results.enum.map fun p => txLogsGo eb p.1 p.2.1 0 0 p.2.2.logs).flatten

/-! #### EVM model (external collaborator, revm)

`transact_preverified`, `commit` and `merge_transitions` belong to revm; they
are modelled as an abstract machine over a state type `S` with an opaque-to-us
change-set type `C`. `transact_preverified` reads the current state and the
filled transaction environment (transaction plus recovered sender) and either
yields an execution result with a change set, or an EVM error. -/

/-- revm `EVMError`, split as the source's match does: the recoverable
`Transaction` variant versus every other variant. -/
inductive EVMError where
  | transaction (err : Nat)
  | other (err : Nat)
  deriving Repr, DecidableEq

/-- The EVM operations used by `ShadowExecutor`, over state `S` and change
sets `C`. -/
structure EvmModel (S C : Type) where
  transact_preverified : S → Transaction → Address → Except EVMError (ExecutionResult × C)
  commit : S → C → S
  merge_transitions : S → S

/-- The transaction loop of `ShadowExecutor::execute_one`: recover the signer
(skip the transaction on failure), execute pre-verified (skip on
`EVMError::Transaction`; skip with an error-severity log on any other error),
and on success commit the state changes and record the result. -/
def executeTxs {S C : Type} (evm : EvmModel S C) :
    List Transaction → S → List (Transaction × ExecutionResult) →
      S × List (Transaction × ExecutionResult)
  | [], s, results => (s, results)
  | transaction :: rest, s, results =>
    match transaction.recover_signer with
    | none => executeTxs evm rest s results
    | some sender =>
      match evm.transact_preverified s transaction sender with
      | .error (.transaction _) => executeTxs evm rest s results
      | .error (.other _) => executeTxs evm rest s results
      | .ok (result, state) => executeTxs evm rest (evm.commit s state) (results ++ [(transaction, result)])

/-- revm `BlockEnv`, restricted to the fields the claims touch. -/
structure BlockEnv where
  number : Nat
  timestamp : Nat
  basefee : Nat
  deriving Repr, DecidableEq

/-- Modelled from the reth library (external collaborator):
`EthEvmConfig::fill_cfg_and_block_env` fills the block environment from the
header and chain spec; its final argument is the total difficulty
(`U256::ZERO` at this call site). It sets `basefee` to the header's
`base_fee_per_gas`, defaulting to 0 when the header has none. -/
def fill_cfg_and_block_env (header : Header) (_totalDifficulty : Nat) : BlockEnv :=
  { number := header.number
    timestamp := header.timestamp
    basefee := header.base_fee_per_gas.getD 0 }

/-- `configure_evm`: configure the EVM's block environment from the header and
chain spec. No base-fee modification is performed anywhere in this function or
its caller; the header is passed through unchanged. -/
def configure_evm (header : Header) : BlockEnv :=
  fill_cfg_and_block_env header 0

/-- `ShadowExecutor::execute_one`: configure the EVM, compute the canonical
block hash before state-changing operations (`hashSlow` models
`Block::hash_slow`), run the transaction loop, merge transitions when the
block had transactions, and return the `ExecutedBlock`. The source returns
`eyre::Result`; no path in the body produces an error. -/
def execute_one {S C : Type} (evm : EvmModel S C) (hashSlow : Block → B256) (s : S)
    (block : Block) (transactions : List Transaction) :
    Except String (ExecutedBlock × S) :=
  let canonical_block_hash := hashSlow block
  if transactions.isEmpty then
    .ok ({ block := block, canonical_block_hash := canonical_block_hash, results := [] }, s)
  else
    let out := executeTxs evm transactions s []
    .ok ({ block := block, canonical_block_hash := canonical_block_hash, results := out.2 },
      evm.merge_transitions out.1)

/-! ### Chain notification handler, log filtering (`crates/exex/src/lib.rs`) -/

/-- The post-synthesis filter of `ShadowExEx::exex`: keep only logs whose
(re-parsed) address is shadowed. The source parses each log's hex address
string with `.expect(..)`; a parse failure aborts (modelled as `.error`). -/
def filterShadowLogs (contracts : ShadowContracts) :
    List ShadowLog → Except String (List ShadowLog)
  | [] => .ok []
  | log :: rest =>
    match parseAddress log.address with
    | none => .error "failed to parse log address"
    | some address =>
      match filterShadowLogs contracts rest with
      | .error e => .error e
      | .ok rest' => .ok (if contracts.is_shadowed address then log :: rest' else rest')

/-- The log-collection pipeline of the `ChainCommitted` arm: the synthesized
logs of all executed blocks, in block order. -/
def allBlockLogs (executedBlocks : List ExecutedBlock) : List ShadowLog :=
  (executedBlocks.map ExecutedBlock.logs).flatten

/-! ### Log store (`crates/common/src/db.rs`) -/

/-- A row of the `shadow_logs` table: the log columns plus the
`created_at`/`updated_at` timestamps that `bulk_insert` fills with `date()`. -/
structure ShadowLogRow where
  log : ShadowLog
  created_at : Nat
  updated_at : Nat
  deriving Repr, DecidableEq

/-- `ShadowSqliteDb::handle_block_reorg`, at the level of the table state.
Modelled from the executed SQL: `UPDATE shadow_logs SET removed = true WHERE
block_hash = X'…'` sets only the `removed` column of the rows whose stored
`block_hash` equals the hex-decoded argument, and leaves every other row (and
every other column) unchanged. -/
def handle_block_reorg (block_hash : B256) (table : List ShadowLogRow) : List ShadowLogRow :=
  table.map fun r =>
    if r.log.block_hash = toLowerHex64 block_hash then
      { r with log := { r.log with removed := true } }
    else r

/-- The exact column list of the bulk insert statement (whitespace
normalized), up to and including `VALUES `. -/
def insertStmtHead : String :=
  "INSERT INTO shadow_logs (block_number, block_hash, block_timestamp, " ++
  "transaction_index, transaction_hash, block_log_index, transaction_log_index, " ++
  "address, data, topic_0, topic_1, topic_2, topic_3, removed, created_at, updated_at) "

/-- Lowercase hex digit character. -/
def hexDigitChar (d : Nat) : Char :=
  if d < 10 then Char.ofNat (48 + d) else Char.ofNat (87 + d)

/-- Render a hex-string model as the textual hex digits (most significant
first, as displayed). -/
def hexText (s : HexString) : String :=
  String.mk (s.reverse.map hexDigitChar)

/-- A single quote character, for SQL blob literals. -/
def sqlQuote : String := String.singleton (Char.ofNat 39)

/-- `X'…'` blob literal built from a hex string sliced past `0x`. -/
def blobLit (s : HexString) : String :=
  "X" ++ sqlQuote ++ hexText s ++ sqlQuote

/-- An optional hex column: `NULL` or a blob literal (`map_or` in the source). -/
def blobLitOpt (s : Option HexString) : String :=
  match s with
  | none => "NULL"
  | some v => blobLit v

/-- The per-log value tuple appended by the bulk insert's `format!`. -/
def tupleText (log : ShadowLog) : String :=
  "(" ++ toString log.block_number ++ ", " ++ blobLit log.block_hash ++ ", " ++
  toString log.block_timestamp ++ ", " ++ toString log.transaction_index ++ ", " ++
  blobLit log.transaction_hash ++ ", " ++ toString log.block_log_index ++ ", " ++
  toString log.transaction_log_index ++ ", " ++ blobLit log.address ++ ", " ++
  blobLitOpt log.data ++ ", " ++ blobLitOpt log.topic_0 ++ ", " ++
  blobLitOpt log.topic_1 ++ ", " ++ blobLitOpt log.topic_2 ++ ", " ++
  blobLitOpt log.topic_3 ++ ", " ++ toString log.removed ++ ", date(), date())"

/-- Outcome of building the bulk insert statement. `abortedUnderflow` models a
Rust debug-mode arithmetic abort on the `logs_len - 1` subtraction; the
builder checks `1 ≤ logs_len` before evaluating it. -/
inductive BuildOutcome where
  | ok (query : String)
  | abortedUnderflow
  deriving Repr, DecidableEq

/-- The statement builder of `bulk_insert_into_shadow_log_table`: start from
the column list ending in `VALUES `, then for each `(i, log)` append the value
tuple and, when `i < logs_len - 1`, a separating `, `. -/
def buildBulkInsertQuery (logs : List ShadowLog) : BuildOutcome :=
  let logs_len := logs.length
  logs.enum.foldl
    (fun acc p =>
      match acc with
      | .abortedUnderflow => .abortedUnderflow
      | .ok query =>
        if 1 ≤ logs_len then
          .ok (query ++ tupleText p.2 ++ if p.1 < logs_len - 1 then ", " else "")
        else .abortedUnderflow)
    (.ok (insertStmtHead ++ "VALUES "))

/-- SQL execution failure.  -/
inductive SqlError where
  | invalidStatement
  deriving Repr, DecidableEq

/-- Modelled from the SQLite engine (external collaborator): an `INSERT … VALUES `
statement with no value tuples is rejected as invalid and a rejected statement
leaves the table unchanged; a valid one atomically appends one row per tuple
with `created_at = updated_at = date()` (the `now` argument). -/
def execBulkInsert (logs : List ShadowLog) (now : Nat) (table : List ShadowLogRow) :
    Except SqlError (List ShadowLogRow) :=
  if logs.isEmpty then .error .invalidStatement
  else .ok (table ++ logs.map fun log => { log := log, created_at := now, updated_at := now })

/-- `ShadowSqliteDb::bulk_insert_into_shadow_log_table`: build the compound
insert statement, then execute it against the table. -/
def bulk_insert_into_shadow_log_table (logs : List ShadowLog) (now : Nat)
    (table : List ShadowLogRow) : BuildOutcome × Except SqlError (List ShadowLogRow) :=
  (buildBulkInsertQuery logs, execBulkInsert logs now table)

/-! ### RPC parameter validation (`crates/rpc/src/apis/get_logs.rs`,
`crates/rpc/src/shadow_logs_query.rs`) -/

/-- A JSON-RPC error object: code and message. -/
structure RpcError where
  code : Int
  message : String
  deriving Repr, DecidableEq

/-- jsonrpsee `INTERNAL_ERROR_CODE`. -/
def INTERNAL_ERROR_CODE : Int := -32603

/-- The conflict error returned when `blockHash` is combined with `fromBlock`
or `toBlock`. -/
def blockIdConflictError : RpcError :=
  { code := -32001
    message := "Parameters fromBlock and toBlock cannot be used if blockHash parameter is present" }

/-- `BlockNumberOrTag`. -/
inductive BlockNumberOrTag where
  | latest
  | finalized
  | safe
  | earliest
  | pending
  | number (n : Nat)
  deriving Repr, DecidableEq

/-- Hex value of one character, if it is a lowercase hex digit. -/
def charHexVal (c : Char) : Option Nat :=
  if 48 ≤ c.toNat ∧ c.toNat ≤ 57 then some (c.toNat - 48)
  else if 97 ≤ c.toNat ∧ c.toNat ≤ 102 then some (c.toNat - 87)
  else none

/-- Parse the digits of a hex numeral (no prefix), most significant first. -/
def hexDigitsToNat : List Char → Option Nat → Option Nat
  | [], acc => acc
  | c :: rest, acc =>
    match acc, charHexVal c with
    | some v, some d => hexDigitsToNat rest (some (16 * v + d))
    | _, _ => none

/-- `BlockNumberOrTag::from_str` (external collaborator, alloy): the five tags,
or a `0x`-prefixed hex block number. -/
def parseBlockNumberOrTag (s : String) : Option BlockNumberOrTag :=
  if s = "latest" then some .latest
  else if s = "finalized" then some .finalized
  else if s = "safe" then some .safe
  else if s = "earliest" then some .earliest
  else if s = "pending" then some .pending
  else
    match s.data with
    | '0' :: 'x' :: rest =>
      if rest.isEmpty then none else (hexDigitsToNat rest (some 0)).map .number
    | _ => none

/-- The host's block provider: resolves tags and hashes to blocks. -/
structure RpcProvider where
  block_by_number_or_tag : BlockNumberOrTag → Except String (Option Block)
  block_by_hash : B256 → Except String (Option Block)

/-- The `match provider.block_by_number_or_tag(tag)` pattern repeated in every
arm of the validators: a found block's number, or a `-1`-coded error. -/
def resolveTag (provider : RpcProvider) (tag : BlockNumberOrTag) : Except RpcError Nat :=
  match provider.block_by_number_or_tag tag with
  | .ok (some b) => .ok b.header.number
  | .ok none => .error { code := -1, message := "No block found for block number or tag" }
  | .error e => .error { code := -1, message := e }

/-- `BlockNumberOrTag::from_str` followed by the
`if let BlockNumberOrTag::Number(n) … else resolve` step applied to a
`fromBlock`/`toBlock` string. -/
def tagStringToNumber (provider : RpcProvider) (s : String) : Except RpcError Nat :=
  match parseBlockNumberOrTag s with
  | none => .error { code := -1, message := "invalid block number or tag" }
  | some (.number n) => .ok n
  | some tag => resolveTag provider tag

/-- Unvalidated `shadow_getLogs` parameters (`get_logs.rs` version: `address`
is a plain vector of strings). Hex-valued strings (`address`, `blockHash`) are
hex-string models; `fromBlock`/`toBlock` are tag-or-number strings. -/
structure GetLogsParameters where
  address : List HexString
  block_hash : Option HexString
  from_block : Option String
  to_block : Option String
  topics : Option (List HexString)

/-- Validated parameters, `get_logs.rs` version: a closed block-number range.
Addresses are kept as their parsed values (the source re-renders them as
checksummed hex strings; the rendering is injective and not itself queried by
any claim). -/
structure ValidatedQueryParams where
  from_block : Nat
  to_block : Nat
  addresses : List Address
  topics : List (Option HexString)
  deriving Repr, DecidableEq

/-- The address-validation pass at the top of `ValidatedQueryParams::new`:
parse every entry, failing with an internal-code error on the first invalid
one. -/
def parseAddressList : List HexString → Except RpcError (List Address)
  | [] => .ok []
  | s :: rest =>
    match parseAddress s with
    | none => .error { code := INTERNAL_ERROR_CODE, message := "invalid address" }
    | some a =>
      match parseAddressList rest with
      | .error e => .error e
      | .ok as => .ok (a :: as)

/-- The topics-validation step shared by both validators: more than four
topics is a `32002`-coded error, otherwise the topics are assigned
positionally into a four-slot array. -/
def validateTopics (topics : Option (List HexString)) :
    Except RpcError (List (Option HexString)) :=
  match topics with
  | none => .ok [none, none, none, none]
  | some ts =>
    if ts.length > 4 then .error { code := 32002, message := "Only up to four topics are allowed" }
    else .ok [ts.get? 0, ts.get? 1, ts.get? 2, ts.get? 3]

/-- `ValidatedQueryParams::new` (`get_logs.rs`): validate the addresses first,
then resolve the block selection — rejecting `blockHash` combined with
`fromBlock`/`toBlock` with code `-32001` — then validate the topics. -/
def ValidatedQueryParams.new (provider : RpcProvider) (params : GetLogsParameters) :
    Except RpcError ValidatedQueryParams :=
  match parseAddressList params.address with
  | .error e => .error e
  | .ok addresses =>
    let range : Except RpcError (Nat × Nat) :=
      match params.block_hash, params.from_block, params.to_block with
      | none, none, none =>
        match resolveTag provider .latest with
        | .error e => .error e
        | .ok num => .ok (num, num)
      | none, none, some to_block =>
        match resolveTag provider .latest with
        | .error e => .error e
        | .ok from_num =>
          match tagStringToNumber provider to_block with
          | .error e => .error e
          | .ok to_num => .ok (from_num, to_num)
      | none, some from_block, none =>
        match tagStringToNumber provider from_block with
        | .error e => .error e
        | .ok from_num =>
          match resolveTag provider .latest with
          | .error e => .error e
          | .ok to_num => .ok (from_num, to_num)
      | none, some from_block, some to_block =>
        match tagStringToNumber provider from_block with
        | .error e => .error e
        | .ok from_num =>
          match tagStringToNumber provider to_block with
          | .error e => .error e
          | .ok to_num => .ok (from_num, to_num)
      | some block_hash, none, none =>
        match parseB256 block_hash with
        | none => .error { code := -1, message := "invalid block hash" }
        | some h =>
          match provider.block_by_hash h with
          | .ok (some b) => .ok (b.header.number, b.header.number)
          | .ok none => .error { code := -1, message := "No block found for block hash" }
          | .error e => .error { code := -1, message := e }
      | some _, _, _ => .error blockIdConflictError
    match range with
    | .error e => .error e
    | .ok (from_block, to_block) =>
      match validateTopics params.topics with
      | .error e => .error e
      | .ok topics =>
        .ok { from_block := from_block, to_block := to_block,
              addresses := addresses, topics := topics }

/-- The `shadow_getLogs` method body: validate, and only on success run the
compiled query (`runQuery` stands for the SQL execution against the store). -/
def get_logs (provider : RpcProvider) (params : GetLogsParameters)
    (runQuery : ValidatedQueryParams → Except RpcError (List ShadowLog)) :
    Except RpcError (List ShadowLog) :=
  match ValidatedQueryParams.new provider params with
  | .error e => .error e
  | .ok v => runQuery v

/-- Validated block selection, `shadow_logs_query.rs` version. -/
inductive ValidatedBlockIdParam where
  | blockHash (hash : HexString)
  | blockRange (from_block to_block : Nat)
  deriving Repr, DecidableEq

/-- `ValidatedQueryParams::validate_block_id` (`shadow_logs_query.rs`): the
same block-selection match, with a flag choosing whether a lone `blockHash` is
resolved to a single-block range (query path) or retained (subscribe path).
`blockHash` combined with `fromBlock`/`toBlock` is the `-32001` conflict. -/
def validate_block_id (provider : RpcProvider) (block_hash : Option HexString)
    (from_block to_block : Option String) (resolve_block_hash : Bool) :
    Except RpcError ValidatedBlockIdParam :=
  match block_hash, from_block, to_block with
  | none, none, none =>
    match resolveTag provider .latest with
    | .error e => .error e
    | .ok num => .ok (.blockRange num num)
  | none, none, some to_block =>
    match resolveTag provider .latest with
    | .error e => .error e
    | .ok from_num =>
      match tagStringToNumber provider to_block with
      | .error e => .error e
      | .ok to_num => .ok (.blockRange from_num to_num)
  | none, some from_block, none =>
    match tagStringToNumber provider from_block with
    | .error e => .error e
    | .ok from_num =>
      match resolveTag provider .latest with
      | .error e => .error e
      | .ok to_num => .ok (.blockRange from_num to_num)
  | none, some from_block, some to_block =>
    match tagStringToNumber provider from_block with
    | .error e => .error e
    | .ok from_num =>
      match tagStringToNumber provider to_block with
      | .error e => .error e
      | .ok to_num => .ok (.blockRange from_num to_num)
  | some bh, none, none =>
    if resolve_block_hash then
      match parseB256 bh with
      | none => .error { code := -1, message := "invalid block hash" }
      | some h =>
        match provider.block_by_hash h with
        | .ok (some b) => .ok (.blockRange b.header.number b.header.number)
        | .ok none => .error { code := -1, message := "No block found for block hash" }
        | .error e => .error { code := -1, message := e }
    else .ok (.blockHash bh)
  | some _, _, _ => .error blockIdConflictError

/-! ### Shared lemmas about the association-list model -/

theorem exists_of_findSome?_some {α β : Type} {f : α → Option β} {b : β} :
    ∀ {l : List α}, l.findSome? f = some b → ∃ a ∈ l, f a = some b := by
  intro l
  induction l with
  | nil => intro h; simp [List.findSome?] at h
  | cons x xs ih =>
    intro h
    rw [List.findSome?_cons] at h
    cases hx : f x with
    | some v => rw [hx] at h; exact ⟨x, List.mem_cons_self x xs, hx.trans h⟩
    | none =>
      rw [hx] at h
      obtain ⟨a, ha, hfa⟩ := ih h
      exact ⟨a, List.mem_cons_of_mem x ha, hfa⟩

theorem forall_of_findSome?_none {α β : Type} {f : α → Option β} :
    ∀ {l : List α}, l.findSome? f = none → ∀ a ∈ l, f a = none := by
  intro l
  induction l with
  | nil => intro _ a ha; simp at ha
  | cons x xs ih =>
    intro h a ha
    rw [List.findSome?_cons] at h
    cases hx : f x with
    | some v => rw [hx] at h; exact absurd h (by simp)
    | none =>
      rw [hx] at h
      rcases List.mem_cons.mp ha with rfl | ha'
      · exact hx
      · exact ih h a ha'

theorem find?_isSome_of_mem_key {β : Type} {l : List (Address × β)} {a : Address} {b : β}
    (h : (a, b) ∈ l) : ∃ q, l.find? (fun p => p.1 == a) = some q ∧ q.1 = a := by
  induction l with
  | nil => simp at h
  | cons x xs ih =>
    by_cases hx : x.1 == a
    · exact ⟨x, by rw [@List.find?_cons_of_pos _ (fun p => p.1 == a) x xs hx],
        by simpa using hx⟩
    · rcases List.mem_cons.mp h with rfl | h'
      · simp at hx
      · obtain ⟨q, hq, hqa⟩ := ih h'
        exact ⟨q, by rw [@List.find?_cons_of_neg _ (fun p => p.1 == a) x xs hx, hq], hqa⟩

theorem find?_eq_of_mem_key_nodup {β : Type} {l : List (Address × β)} {a : Address} {b : β}
    (hnd : (l.map Prod.fst).Nodup) (h : (a, b) ∈ l) :
    l.find? (fun p => p.1 == a) = some (a, b) := by
  induction l with
  | nil => simp at h
  | cons x xs ih =>
    rw [List.map_cons, List.nodup_cons] at hnd
    rcases List.mem_cons.mp h with rfl | h'
    · rw [List.find?_cons_of_pos _ (by simp)]
    · have hx : ¬(x.1 == a) := by
        intro hx
        exact hnd.1 (by
          have : a ∈ xs.map Prod.fst := List.mem_map.mpr ⟨(a, b), h', rfl⟩
          simpa [show x.1 = a by simpa using hx] using this)
      rw [@List.find?_cons_of_neg _ (fun p => p.1 == a) x xs hx]
      exact ih hnd.2 h'

theorem find?_map_key {β γ : Type} (f : Address × β → γ) (a : Address) :
    ∀ l : List (Address × β),
      ((l.map fun p => (p.1, f p)).find? fun p => p.1 == a)
        = (l.find? fun p => p.1 == a).map fun p => (p.1, f p) := by
  intro l
  induction l with
  | nil => rfl
  | cons x xs ih =>
    by_cases hx : x.1 == a
    · rw [List.map_cons,
        @List.find?_cons_of_pos _ (fun p => p.1 == a) (x.1, f x) _ (by simpa using hx),
        @List.find?_cons_of_pos _ (fun p => p.1 == a) x xs hx, Option.map_some']
    · rw [List.map_cons,
        @List.find?_cons_of_neg _ (fun p => p.1 == a) (x.1, f x) _ (by simpa using hx),
        @List.find?_cons_of_neg _ (fun p => p.1 == a) x xs hx, ih]

theorem mem_of_mem_enumFrom {α : Type} {p : Nat × α} :
    ∀ {l : List α} {n : Nat}, p ∈ l.enumFrom n → p.2 ∈ l := by
  intro l
  induction l with
  | nil => intro n h; simp at h
  | cons x xs ih =>
    intro n h
    rw [List.enumFrom_cons] at h
    rcases List.mem_cons.mp h with rfl | h'
    · exact List.mem_cons_self x xs
    · exact List.mem_cons_of_mem x (ih h')

theorem mem_of_mem_enum {α : Type} {p : Nat × α} {l : List α} (h : p ∈ l.enum) : p.2 ∈ l :=
  mem_of_mem_enumFrom h

/-- `code_hash` of a constructed set is `hash_slow` of its `code`. -/
theorem ofConfig_code_hash (hashSlow : Bytecode → B256) (entries : List (Address × Bytecode))
    (a : Address) :
    (ShadowContracts.ofConfig hashSlow entries).code_hash a
      = ((ShadowContracts.ofConfig hashSlow entries).code a).map hashSlow := by
  show ((entries.map fun p => (p.1, hashSlow p.2)).find? fun p => p.1 == a).map (·.2)
      = ((entries.find? fun p => p.1 == a).map (·.2)).map hashSlow
  rw [find?_map_key (fun p => hashSlow p.2) a entries]
  cases entries.find? fun p => p.1 == a <;> rfl

/-- A shadowed address has shadow code. -/
theorem code_isSome_of_is_shadowed {s : ShadowContracts} {a : Address}
    (h : s.is_shadowed a = true) : ∃ c, s.code a = some c := by
  obtain ⟨p, hp, hpa⟩ := List.any_eq_true.mp h
  obtain ⟨p1, p2⟩ := p
  have hpa' : p1 = a := by simpa using hpa
  subst hpa'
  obtain ⟨q, hq, -⟩ := find?_isSome_of_mem_key hp
  exact ⟨q.2, by rw [ShadowContracts.code, hq, Option.map_some']⟩

/-! ### C7: `block_hash_ref` overflow behavior -/

/-- C7 (confirmed): for every requested block number, `block_hash_ref` fails
with the block-number-overflow error exactly when the number cannot be
represented as a 64-bit unsigned integer; otherwise it returns the snapshot's
hash for that number — the zero hash when the snapshot has none. (Provider
I/O failures propagate unchanged and are outside the claim.) -/
theorem block_hash_ref_overflow_spec (d : ShadowDatabase) (number : Nat) :
    (2 ^ 64 ≤ number →
      d.block_hash_ref number = .error (.blockNumberOverflow number)) ∧
    (∀ h?, number < 2 ^ 64 → d.db.block_hash number = .ok h? →
      d.block_hash_ref number = .ok (h?.getD 0)) := by
  constructor
  · intro h
    rw [ShadowDatabase.block_hash_ref, if_neg (by omega)]
  · intro h? hlt hok
    rw [ShadowDatabase.block_hash_ref, if_pos hlt, hok]

/-- Concrete bytecode-hash function for witnesses. -/
def hashW : Bytecode → B256 := fun c => c.length + 100

/-- Concrete shadow set for witnesses: address 5 is shadowed. -/
def shadowCtrW : ShadowContracts := ShadowContracts.ofConfig hashW [(5, [1, 2, 3])]

/-- Concrete snapshot for witnesses: no accounts, block 5 has hash 77. -/
def snapshotW : StateSnapshot :=
  { basic_account := fun _ => .ok none
    block_hash := fun n => if n = 5 then .ok (some 77) else .ok none
    bytecode_by_hash := fun _ => .ok none }

/-- Concrete adapter for witnesses. -/
def shadowDbW : ShadowDatabase := { db := snapshotW, shadow := shadowCtrW }

theorem block_hash_ref_overflow_spec_witness :
    shadowDbW.block_hash_ref (2 ^ 64) = .error (.blockNumberOverflow (2 ^ 64)) ∧
    shadowDbW.block_hash_ref 5 = .ok 77 :=
  ⟨(block_hash_ref_overflow_spec shadowDbW (2 ^ 64)).1 (le_refl _),
   (block_hash_ref_overflow_spec shadowDbW 5).2 (some 77) (by norm_num) rfl⟩

/-! ### C1: shadow precedence in `basic_ref` -/

/-- C1 (amended): for every shadowed address, whenever the underlying snapshot
has a basic account at that address, `basic_ref` returns an account view whose
`code_hash` is the shadow code hash (`hash_slow` of the shadow bytecode) and
whose `code` is the shadow bytecode, regardless of the stored account's own
balance, nonce and bytecode hash. (When the snapshot has no account at the
address, `basic_ref` returns no account view at all — see the
counterexample.) -/
theorem basic_ref_shadow_precedence (hashSlow : Bytecode → B256)
    (entries : List (Address × Bytecode)) (snapshot : StateSnapshot) (a : Address)
    (account : Account) (s : ShadowContracts) (d : ShadowDatabase)
    (hs : s = ShadowContracts.ofConfig hashSlow entries)
    (hd : d = { db := snapshot, shadow := s })
    (hsh : s.is_shadowed a = true)
    (hacct : snapshot.basic_account a = .ok (some account)) :
    ∃ c, s.code a = some c ∧
      d.basic_ref a = .ok (some
        { balance := account.balance
          nonce := account.nonce
          code_hash := hashSlow c
          code := some c }) := by
  obtain ⟨c, hc⟩ := code_isSome_of_is_shadowed hsh
  refine ⟨c, hc, ?_⟩
  have hch : s.code_hash a = some (hashSlow c) := by
    rw [hs] at hc ⊢
    rw [ofConfig_code_hash, hc, Option.map_some']
  subst hd
  rw [ShadowDatabase.basic_ref]
  simp only [hacct, hch, hc, Option.map_some', Option.getD_some]

/-- C1 counterexample: address 5 is shadowed, but the snapshot has no basic
account at 5, so `basic_ref` returns `Ok(None)` — no account view carrying the
shadow code hash and bytecode is produced, contrary to the claim's "every call
… returns an account view … regardless of the contents of the underlying
snapshot". -/
theorem basic_ref_missing_account_counterexample :
    shadowCtrW.is_shadowed 5 = true ∧ shadowDbW.basic_ref 5 = .ok none :=
  ⟨rfl, rfl⟩

theorem basic_ref_shadow_precedence_witness :
    ∃ c, shadowCtrW.code 5 = some c ∧
      ShadowDatabase.basic_ref
          { db := { snapshotW with basic_account := fun _ => .ok (some ⟨9, 2, none⟩) }
            shadow := shadowCtrW } 5
        = .ok (some { balance := 9, nonce := 2, code_hash := hashW c, code := some c }) :=
  basic_ref_shadow_precedence hashW [(5, [1, 2, 3])]
    { snapshotW with basic_account := fun _ => .ok (some ⟨9, 2, none⟩) } 5 ⟨9, 2, none⟩
    shadowCtrW _ rfl rfl (by decide) rfl

/-! ### C8: `code_by_hash_ref` -/

/-- C8 (confirmed): `code_by_hash_ref` never returns an error; when some
shadow address's code hash equals the requested hash it returns that shadow
bytecode (an actual config entry whose hash is the requested one); otherwise
no shadow entry hashes to the request and it returns the snapshot's bytecode
for the hash, or empty bytecode when the snapshot has none (snapshot failures
are absorbed the same way). -/
theorem code_by_hash_ref_spec (hashSlow : Bytecode → B256)
    (entries : List (Address × Bytecode)) (snapshot : StateSnapshot) (h : B256)
    (s : ShadowContracts) (d : ShadowDatabase)
    (hnd : (entries.map Prod.fst).Nodup)
    (hs : s = ShadowContracts.ofConfig hashSlow entries)
    (hd : d = { db := snapshot, shadow := s }) :
    (∃ b, d.code_by_hash_ref h = .ok b) ∧
    (∀ c, s.code_by_hash h = some c →
      d.code_by_hash_ref h = .ok c ∧ ∃ a, (a, c) ∈ entries ∧ hashSlow c = h) ∧
    (s.code_by_hash h = none →
      d.code_by_hash_ref h = .ok (((snapshot.bytecode_by_hash h).toOption.join).getD []) ∧
      ∀ p ∈ entries, hashSlow p.2 ≠ h) := by
  subst hd
  subst hs
  refine ⟨⟨_, rfl⟩, ?_, ?_⟩
  · intro c hc
    constructor
    · rw [ShadowDatabase.code_by_hash_ref]
      simp only [hc, Option.getD_some]
    · obtain ⟨q, hq, hfq⟩ := exists_of_findSome?_some hc
      have hq' : q ∈ entries.map fun p => (p.1, hashSlow p.2) := hq
      obtain ⟨⟨a0, c0⟩, hmem, hq0⟩ := List.mem_map.mp hq'
      subst hq0
      simp only at hfq
      by_cases hcond : (hashSlow c0 == h) = true
      · rw [if_pos hcond] at hfq
        have hcode : (ShadowContracts.ofConfig hashSlow entries).code a0
            = (entries.find? fun p => p.1 == a0).map (·.2) := rfl
        rw [hcode, find?_eq_of_mem_key_nodup hnd hmem, Option.map_some'] at hfq
        have hcc : c = c0 := (Option.some_inj.mp hfq).symm
        subst hcc
        exact ⟨a0, hmem, by simpa using hcond⟩
      · rw [if_neg hcond] at hfq
        exact absurd hfq (by simp)
  · intro hnone
    constructor
    · rw [ShadowDatabase.code_by_hash_ref]
      simp only [hnone, Option.getD_none]
    · intro p hp hph
      obtain ⟨p1, p2⟩ := p
      simp only at hph
      have hq : (p1, hashSlow p2) ∈ (ShadowContracts.ofConfig hashSlow entries).code_hashes :=
        List.mem_map.mpr ⟨(p1, p2), hp, rfl⟩
      have hnone' := forall_of_findSome?_none hnone _ hq
      rw [if_pos (by simpa using hph)] at hnone'
      obtain ⟨q, hfind, -⟩ := @find?_isSome_of_mem_key Bytecode entries p1 p2 hp
      have hcode : (ShadowContracts.ofConfig hashSlow entries).code p1
          = (entries.find? fun p => p.1 == p1).map (·.2) := rfl
      rw [hcode, hfind] at hnone'
      simp at hnone'

theorem code_by_hash_ref_spec_witness :
    (∃ b, shadowDbW.code_by_hash_ref 103 = .ok b) ∧
    shadowDbW.code_by_hash_ref 103 = .ok [1, 2, 3] ∧
    shadowDbW.code_by_hash_ref 999 = .ok [] := by
  have h1 := code_by_hash_ref_spec hashW [(5, [1, 2, 3])] snapshotW 103 shadowCtrW shadowDbW
    (by decide) rfl rfl
  have h2 := code_by_hash_ref_spec hashW [(5, [1, 2, 3])] snapshotW 999 shadowCtrW shadowDbW
    (by decide) rfl rfl
  refine ⟨h1.1, (h1.2.1 [1, 2, 3] (by decide)).1, ?_⟩
  have := (h2.2.2 (by decide)).1
  simpa using this

/-! ### C9: revert invalidation is idempotent -/

/-- The row update applied by `handle_block_reorg` to a single row. -/
def markRemovedRow (block_hash : B256) (r : ShadowLogRow) : ShadowLogRow :=
  if r.log.block_hash = toLowerHex64 block_hash then
    { r with log := { r.log with removed := true } }
  else r

theorem handle_block_reorg_eq_map (block_hash : B256) (table : List ShadowLogRow) :
    handle_block_reorg block_hash table = table.map (markRemovedRow block_hash) := rfl

theorem markRemovedRow_idem (block_hash : B256) (r : ShadowLogRow) :
    markRemovedRow block_hash (markRemovedRow block_hash r) = markRemovedRow block_hash r := by
  by_cases hb : r.log.block_hash = toLowerHex64 block_hash
  · simp [markRemovedRow, hb]
  · simp [markRemovedRow, hb]

theorem handle_block_reorg_idem (block_hash : B256) (table : List ShadowLogRow) :
    handle_block_reorg block_hash (handle_block_reorg block_hash table)
      = handle_block_reorg block_hash table := by
  simp only [handle_block_reorg_eq_map, List.map_map]
  refine List.map_congr_left fun r _ => ?_
  simpa [Function.comp] using markRemovedRow_idem block_hash r

theorem zip_map_snd {α : Type} {f : α → α} {p : α × α} :
    ∀ {l : List α}, p ∈ l.zip (l.map f) → p.2 = f p.1 := by
  intro l
  induction l with
  | nil => intro h; simp at h
  | cons x xs ih =>
    intro h
    rw [List.map_cons, List.zip_cons_cons] at h
    rcases List.mem_cons.mp h with rfl | h'
    · rfl
    · exact ih h'

/-- C9 (confirmed): applying `handle_block_reorg h` any positive number of
times produces the same table as applying it once; the once-applied table
pairs every original row whose `block_hash` matches with the same row with
only `removed` set to `true`, and pairs every other row with itself,
unchanged in every field. -/
theorem handle_block_reorg_idempotent (block_hash : B256) (table : List ShadowLogRow)
    (n : Nat) (hn : 0 < n) :
    (handle_block_reorg block_hash)^[n] table = handle_block_reorg block_hash table ∧
    ∀ p ∈ table.zip (handle_block_reorg block_hash table),
      (p.1.log.block_hash = toLowerHex64 block_hash →
        p.2 = { p.1 with log := { p.1.log with removed := true } }) ∧
      (p.1.log.block_hash ≠ toLowerHex64 block_hash → p.2 = p.1) := by
  constructor
  · induction n with
    | zero => omega
    | succ k ih =>
      rcases Nat.eq_zero_or_pos k with rfl | hk
      · simp
      · rw [Function.iterate_succ_apply', ih hk, handle_block_reorg_idem]
  · intro p hp
    have h2 : p.2 = markRemovedRow block_hash p.1 :=
      zip_map_snd (by rwa [← handle_block_reorg_eq_map])
    constructor
    · intro hb
      rw [h2, markRemovedRow, if_pos hb]
    · intro hb
      rw [h2, markRemovedRow, if_neg hb]

/-- Concrete rows for the C9 witness: one row at the reverted hash, one at
another hash. -/
def rowAtHashW : ShadowLogRow :=
  { log := { address := toLowerHex40 5, block_hash := toLowerHex64 7, block_log_index := 1
             block_number := 1, block_timestamp := 10, transaction_index := 0
             transaction_hash := toLowerHex64 100, transaction_log_index := 0
             removed := false, data := some [0], topic_0 := some (toLowerHex64 9)
             topic_1 := none, topic_2 := none, topic_3 := none }
    created_at := 1, updated_at := 1 }

/-- A row whose block hash differs from the reverted one. -/
def rowOtherW : ShadowLogRow :=
  { rowAtHashW with log := { rowAtHashW.log with block_hash := toLowerHex64 8 } }

theorem handle_block_reorg_idempotent_witness :
    (handle_block_reorg 7)^[2] [rowAtHashW, rowOtherW]
        = handle_block_reorg 7 [rowAtHashW, rowOtherW] ∧
    ∀ p ∈ ([rowAtHashW, rowOtherW]).zip (handle_block_reorg 7 [rowAtHashW, rowOtherW]),
      (p.1.log.block_hash = toLowerHex64 7 →
        p.2 = { p.1 with log := { p.1.log with removed := true } }) ∧
      (p.1.log.block_hash ≠ toLowerHex64 7 → p.2 = p.1) :=
  handle_block_reorg_idempotent 7 [rowAtHashW, rowOtherW] 2 (by decide)

/-! ### C10: bulk insert of an empty batch -/

/-- C10 (confirmed): with an empty batch the statement builder performs no
per-row step — in particular the `logs_len - 1` subtraction is never evaluated
(no underflow abort) — and the generated statement is exactly the column list
ending at `VALUES ` with no value tuples; executing it fails, leaving the
table unchanged. -/
theorem bulk_insert_empty_batch (now : Nat) (table : List ShadowLogRow) :
    buildBulkInsertQuery [] = .ok (insertStmtHead ++ "VALUES ") ∧
    bulk_insert_into_shadow_log_table [] now table
      = (.ok (insertStmtHead ++ "VALUES "), .error .invalidStatement) :=
  ⟨rfl, rfl⟩

/-! ### C3: base fee during re-execution -/

/-- A header carrying a nonzero base fee — the C3 failing input. -/
def headerBaseFee7 : Header :=
  { number := 1, timestamp := 2, difficulty := 0, base_fee_per_gas := some 7 }

/-- C3 (code bug): `configure_evm` fills the block environment from the
unmodified header, so the effective base fee is the header's
`base_fee_per_gas` (7 here), not zero; no statement in the executor zeroes the
base fee before execution. -/
theorem configure_evm_keeps_header_basefee :
    (configure_evm headerBaseFee7).basefee = 7 ∧
    ∀ header : Header, (configure_evm header).basefee = header.base_fee_per_gas.getD 0 :=
  ⟨rfl, fun _ => rfl⟩

/-! ### C2: shadow log ordering and indexing -/

/-- The per-transaction synthesis, written by position: record `j` carries
`transaction_log_index = j` and `block_log_index = j + 1`. -/
def txLogsIndexed (eb : ExecutedBlock) (transaction_index : Nat) (transaction : Transaction)
    (logs : List EvmLog) : List ShadowLog :=
  logs.mapIdx fun j log => synthesizeLog eb transaction_index transaction (j + 1) j log

theorem txLogsGo_eq_mapIdx (eb : ExecutedBlock) (ti : Nat) (tx : Transaction) :
    ∀ (logs : List EvmLog) (c t : Nat),
      txLogsGo eb ti tx c t logs
        = logs.mapIdx fun j log => synthesizeLog eb ti tx (c + j + 1) (t + j) log := by
  intro logs
  induction logs with
  | nil => intro c t; rfl
  | cons x xs ih =>
    intro c t
    have hfun : (fun j (log : EvmLog) => synthesizeLog eb ti tx (c + 1 + j + 1) (t + 1 + j) log)
        = fun j log => synthesizeLog eb ti tx (c + (j + 1) + 1) (t + (j + 1)) log := by
      funext j log
      have h1 : c + 1 + j + 1 = c + (j + 1) + 1 := by omega
      have h2 : t + 1 + j = t + (j + 1) := by omega
      rw [h1, h2]
    rw [txLogsGo, List.mapIdx_cons, ih (c + 1) (t + 1), hfun]
    rfl

theorem txLogsGo_block_index (eb : ExecutedBlock) (ti : Nat) (tx : Transaction) :
    ∀ (logs : List EvmLog) (c : Nat) (l : ShadowLog),
      l ∈ txLogsGo eb ti tx c c logs →
        l.block_log_index = l.transaction_log_index + 1 := by
  intro logs
  induction logs with
  | nil => intro c l h; simp [txLogsGo] at h
  | cons x xs ih =>
    intro c l h
    rw [txLogsGo] at h
    rcases List.mem_cons.mp h with rfl | h'
    · rfl
    · exact ih (c + 1) l h'

/-- C2 (amended): `ExecutedBlock::logs` enumerates the results in the map's
iteration order (which is unspecified, not guaranteed canonical transaction
order) and, within each transaction, that transaction's emitted logs in emit
order; `transaction_log_index` starts at 0 within each transaction; and
`block_log_index` equals `transaction_log_index + 1` — because the inner
`move` closure increments its own copy of the `Copy` counter, the index
restarts at 1 for every transaction and is strictly monotonic only within a
transaction, not across the whole block. -/
theorem executed_block_logs_indexing (eb : ExecutedBlock) :
    eb.logs = (eb.results.enum.map fun p => txLogsIndexed eb p.1 p.2.1 p.2.2.logs).flatten ∧
    ∀ l ∈ eb.logs, l.block_log_index = l.transaction_log_index + 1 := by
  constructor
  · rw [ExecutedBlock.logs]
    congr 1
    refine List.map_congr_left fun p _ => ?_
    rw [txLogsGo_eq_mapIdx, txLogsIndexed]
    congr 1
    funext j log
    have h1 : 0 + j + 1 = j + 1 := by omega
    have h2 : 0 + j = j := by omega
    rw [h1, h2]
  · intro l hl
    rw [ExecutedBlock.logs] at hl
    obtain ⟨sub, hsub, hmem⟩ := List.mem_flatten.mp hl
    obtain ⟨p, hp, rfl⟩ := List.mem_map.mp hsub
    exact txLogsGo_block_index eb p.1 p.2.1 p.2.2.logs 0 l hmem

/-- Concrete transactions and log for the C2 counterexample. -/
def txA : Transaction := { hash := 100, recover_signer := some 1 }

/-- Second transaction of the counterexample block. -/
def txB : Transaction := { hash := 200, recover_signer := some 2 }

/-- A single log emitted at address 5. -/
def logAt5 : EvmLog := { address := 5, data := [0], topics := [9] }

/-- The counterexample block. -/
def blockW : Block :=
  { header := { number := 1, timestamp := 10, difficulty := 0, base_fee_per_gas := none } }

/-- Executed counterexample block, one map iteration order. -/
def ebW1 : ExecutedBlock :=
  { block := blockW, canonical_block_hash := 7
    results := [(txA, { logs := [logAt5] }), (txB, { logs := [logAt5] })] }

/-- The same executed block under the opposite map iteration order. -/
def ebW2 : ExecutedBlock :=
  { block := blockW, canonical_block_hash := 7
    results := [(txB, { logs := [logAt5] }), (txA, { logs := [logAt5] })] }

/-- C2 counterexample: a block with two transactions of one log each. Under
either possible iteration order of the two-entry results map the synthesized
`block_log_index` sequence is `[1, 1]`: it does not start at zero, and it is
not strictly monotonic across the whole block's log sequence. -/
theorem executed_block_logs_counterexample :
    ebW1.logs.map ShadowLog.block_log_index = [1, 1] ∧
    ebW2.logs.map ShadowLog.block_log_index = [1, 1] :=
  ⟨rfl, rfl⟩

/-- The first synthesized log of `ebW1`. -/
def logW0 : ShadowLog := synthesizeLog ebW1 0 txA 1 0 logAt5

theorem executed_block_logs_indexing_witness :
    ebW1.logs = (ebW1.results.enum.map fun p =>
        txLogsIndexed ebW1 p.1 p.2.1 p.2.2.logs).flatten ∧
    logW0.block_log_index = logW0.transaction_log_index + 1 :=
  ⟨(executed_block_logs_indexing ebW1).1,
   (executed_block_logs_indexing ebW1).2 logW0 (List.mem_cons_self logW0 _)⟩

/-! ### C4: only shadow-originating logs survive the filter -/

theorem mem_txLogsGo (eb : ExecutedBlock) (ti : Nat) (tx : Transaction) :
    ∀ {logs : List EvmLog} {c t : Nat} {l : ShadowLog},
      l ∈ txLogsGo eb ti tx c t logs →
        ∃ log ∈ logs, l.address = toLowerHex40 log.address := by
  intro logs
  induction logs with
  | nil => intro c t l h; simp [txLogsGo] at h
  | cons x xs ih =>
    intro c t l h
    rw [txLogsGo] at h
    rcases List.mem_cons.mp h with rfl | h'
    · exact ⟨x, List.mem_cons_self x xs, rfl⟩
    · obtain ⟨log, hlog, ha⟩ := ih h'
      exact ⟨log, List.mem_cons_of_mem x hlog, ha⟩

/-- Every synthesized log's address field is the rendering of some emitted EVM
log's address. -/
theorem mem_logs_address {eb : ExecutedBlock} {l : ShadowLog} (hl : l ∈ eb.logs) :
    ∃ p ∈ eb.results, ∃ log ∈ p.2.logs, l.address = toLowerHex40 log.address := by
  rw [ExecutedBlock.logs] at hl
  obtain ⟨sub, hsub, hmem⟩ := List.mem_flatten.mp hl
  obtain ⟨q, hq, rfl⟩ := List.mem_map.mp hsub
  obtain ⟨log, hlog, ha⟩ := mem_txLogsGo eb q.1 q.2.1 hmem
  exact ⟨q.2, mem_of_mem_enum hq, log, hlog, ha⟩

theorem filterShadowLogs_ok (contracts : ShadowContracts) :
    ∀ logs : List ShadowLog,
      (∀ l ∈ logs, (parseAddress l.address).isSome) →
      ∃ kept, filterShadowLogs contracts logs = .ok kept ∧
        ∀ l ∈ kept, l ∈ logs ∧
          ∃ a, parseAddress l.address = some a ∧ contracts.is_shadowed a = true := by
  intro logs
  induction logs with
  | nil => intro _; exact ⟨[], rfl, by simp⟩
  | cons x xs ih =>
    intro hwf
    obtain ⟨a, ha⟩ := Option.isSome_iff_exists.mp (hwf x (List.mem_cons_self x xs))
    obtain ⟨kept, hkept, hprop⟩ := ih fun l hl => hwf l (List.mem_cons_of_mem x hl)
    by_cases hsh : contracts.is_shadowed a = true
    · refine ⟨x :: kept, ?_, ?_⟩
      · simp only [filterShadowLogs, ha, hkept]
        rw [if_pos hsh]
      · intro l hlmem
        rcases List.mem_cons.mp hlmem with rfl | hlk
        · exact ⟨List.mem_cons_self l xs, a, ha, hsh⟩
        · obtain ⟨hin, b, hb, hbsh⟩ := hprop l hlk
          exact ⟨List.mem_cons_of_mem x hin, b, hb, hbsh⟩
    · refine ⟨kept, ?_, ?_⟩
      · simp only [filterShadowLogs, ha, hkept]
        rw [if_neg hsh]
      · intro l hlk
        obtain ⟨hin, b, hb, hbsh⟩ := hprop l hlk
        exact ⟨List.mem_cons_of_mem x hin, b, hb, hbsh⟩

/-- C4 (confirmed): for every input sequence of executed blocks (every EVM log
address being a 20-byte value, as the `Address` type guarantees in the
source), the post-synthesis filter succeeds and every log it lets through to
the bulk insert both occurs among the synthesized logs and has an address
belonging to the Shadow Contract Set; logs from non-shadowed addresses are
discarded. -/
theorem persisted_logs_are_shadowed (contracts : ShadowContracts)
    (executedBlocks : List ExecutedBlock)
    (hbound : ∀ eb ∈ executedBlocks, ∀ p ∈ eb.results, ∀ log ∈ p.2.logs,
      log.address < 16 ^ 40) :
    ∃ kept, filterShadowLogs contracts (allBlockLogs executedBlocks) = .ok kept ∧
      ∀ l ∈ kept, l ∈ allBlockLogs executedBlocks ∧
        ∃ a, parseAddress l.address = some a ∧ contracts.is_shadowed a = true := by
  apply filterShadowLogs_ok
  intro l hl
  rw [allBlockLogs] at hl
  obtain ⟨sub, hsub, hmem⟩ := List.mem_flatten.mp hl
  obtain ⟨eb, heb, rfl⟩ := List.mem_map.mp hsub
  obtain ⟨p, hp, log, hlog, ha⟩ := mem_logs_address hmem
  rw [ha, parseAddress_toLowerHex40 log.address (hbound eb heb p hp log hlog)]
  rfl

theorem persisted_logs_are_shadowed_witness :
    ∃ kept, filterShadowLogs shadowCtrW (allBlockLogs [ebW1]) = .ok kept ∧
      ∀ l ∈ kept, l ∈ allBlockLogs [ebW1] ∧
        ∃ a, parseAddress l.address = some a ∧ shadowCtrW.is_shadowed a = true :=
  persisted_logs_are_shadowed shadowCtrW [ebW1] (by decide)

/-! ### C5: per-transaction failures never fail the batch -/

theorem executeTxs_cons_none {S C : Type} (evm : EvmModel S C) (t : Transaction)
    (rest : List Transaction) (s : S) (acc : List (Transaction × ExecutionResult))
    (h : t.recover_signer = none) :
    executeTxs evm (t :: rest) s acc = executeTxs evm rest s acc := by
  simp only [executeTxs, h]

theorem executeTxs_cons_err {S C : Type} (evm : EvmModel S C) (t : Transaction)
    (rest : List Transaction) (s : S) (acc : List (Transaction × ExecutionResult))
    (sender : Address) (e : EVMError) (h : t.recover_signer = some sender)
    (he : evm.transact_preverified s t sender = .error e) :
    executeTxs evm (t :: rest) s acc = executeTxs evm rest s acc := by
  simp only [executeTxs, h, he]
  cases e with
  | transaction err => rfl
  | other err => rfl

theorem executeTxs_cons_ok {S C : Type} (evm : EvmModel S C) (t : Transaction)
    (rest : List Transaction) (s : S) (acc : List (Transaction × ExecutionResult))
    (sender : Address) (result : ExecutionResult) (state : C)
    (h : t.recover_signer = some sender)
    (he : evm.transact_preverified s t sender = .ok (result, state)) :
    executeTxs evm (t :: rest) s acc
      = executeTxs evm rest (evm.commit s state) (acc ++ [(t, result)]) := by
  simp only [executeTxs, h, he]

theorem executeTxs_append {S C : Type} (evm : EvmModel S C) :
    ∀ (xs ys : List Transaction) (s : S) (acc : List (Transaction × ExecutionResult)),
      executeTxs evm (xs ++ ys) s acc
        = executeTxs evm ys (executeTxs evm xs s acc).1 (executeTxs evm xs s acc).2 := by
  intro xs
  induction xs with
  | nil => intro ys s acc; rfl
  | cons t rest ih =>
    intro ys s acc
    rw [List.cons_append]
    cases htr : t.recover_signer with
    | none =>
      rw [executeTxs_cons_none evm t (rest ++ ys) s acc htr,
        executeTxs_cons_none evm t rest s acc htr]
      exact ih ys s acc
    | some sender =>
      cases hex : evm.transact_preverified s t sender with
      | error e =>
        rw [executeTxs_cons_err evm t (rest ++ ys) s acc sender e htr hex,
          executeTxs_cons_err evm t rest s acc sender e htr hex]
        exact ih ys s acc
      | ok rs =>
        obtain ⟨result, state⟩ := rs
        rw [executeTxs_cons_ok evm t (rest ++ ys) s acc sender result state htr hex,
          executeTxs_cons_ok evm t rest s acc sender result state htr hex]
        exact ih ys _ _

/-- The EVM state after running the transaction loop on a list. -/
def stateAfter {S C : Type} (evm : EvmModel S C) (s : S) (txs : List Transaction) : S :=
  (executeTxs evm txs s []).1

/-- A transaction fails (and is skipped) at state `s`: if its signer recovers,
executing it pre-verified yields some EVM error (either the recoverable
`Transaction` variant or any other). When the signer does not recover,
the skip is unconditional. -/
def txFails {S C : Type} (evm : EvmModel S C) (s : S) (t : Transaction) : Prop :=
  ∀ sender, t.recover_signer = some sender →
    ∃ e, evm.transact_preverified s t sender = .error e

theorem executeTxs_skip {S C : Type} (evm : EvmModel S C) (pre post : List Transaction)
    (t : Transaction) (s0 : S) (hfail : txFails evm (stateAfter evm s0 pre) t) :
    executeTxs evm (pre ++ t :: post) s0 [] = executeTxs evm (pre ++ post) s0 [] := by
  simp only [stateAfter] at hfail
  rw [executeTxs_append evm pre (t :: post) s0 [], executeTxs_append evm pre post s0 []]
  cases htr : t.recover_signer with
  | none => rw [executeTxs_cons_none evm t post _ _ htr]
  | some sender =>
    obtain ⟨e, he⟩ := hfail sender htr
    rw [executeTxs_cons_err evm t post _ _ sender e htr he]

/-- C5 (confirmed): `execute_one` always returns a successful `ExecutedBlock`
for any input, and a transaction that fails — by signature recovery, by
`EVMError::Transaction`, or by any other EVM error — is skipped without
affecting the batch: the returned `ExecutedBlock` is identical to the one
produced with the failing transaction removed, the remaining transactions
executing as before. -/
theorem execute_one_skips_failing_transaction {S C : Type} (evm : EvmModel S C)
    (hashSlow : Block → B256) (s0 : S) (block : Block) (pre post : List Transaction)
    (t : Transaction) (hfail : txFails evm (stateAfter evm s0 pre) t) :
    (∀ txs, ∃ out, execute_one evm hashSlow s0 block txs = .ok out) ∧
    ∃ eb s eb' s',
      execute_one evm hashSlow s0 block (pre ++ t :: post) = .ok (eb, s) ∧
      execute_one evm hashSlow s0 block (pre ++ post) = .ok (eb', s') ∧
      eb = eb' := by
  have hres : ∀ txs, ∃ s', execute_one evm hashSlow s0 block txs
      = .ok ({ block := block, canonical_block_hash := hashSlow block,
               results := (executeTxs evm txs s0 []).2 }, s') := by
    intro txs
    cases htxs : txs.isEmpty with
    | true =>
      have : txs = [] := List.isEmpty_iff.mp htxs
      subst this
      exact ⟨s0, rfl⟩
    | false =>
      refine ⟨evm.merge_transitions (executeTxs evm txs s0 []).1, ?_⟩
      rw [execute_one]
      simp only [htxs]
      rfl
  constructor
  · intro txs
    obtain ⟨s', h⟩ := hres txs
    exact ⟨_, h⟩
  · obtain ⟨s1, h1⟩ := hres (pre ++ t :: post)
    obtain ⟨s2, h2⟩ := hres (pre ++ post)
    refine ⟨_, s1, _, s2, h1, h2, ?_⟩
    rw [executeTxs_skip evm pre post t s0 hfail]

/-- Concrete EVM model for the C5 witness: a transaction with hash 13 fails
with a non-`Transaction` error, every other transaction succeeds. -/
def evmW : EvmModel Nat Nat :=
  { transact_preverified := fun _ t sender =>
      if t.hash = 13 then .error (.other 0) else .ok ({ logs := [logAt5] }, sender)
    commit := fun s c => s + c
    merge_transitions := fun s => s + 1000 }

/-- The failing transaction of the C5 witness. -/
def txFailW : Transaction := { hash := 13, recover_signer := some 4 }

/-- Concrete block-hash function for the C5 witness. -/
def hashSlowW : Block → B256 := fun _ => 7

theorem execute_one_skips_failing_transaction_witness :
    (∀ txs, ∃ out, execute_one evmW hashSlowW 0 blockW txs = .ok out) ∧
    ∃ eb s eb' s',
      execute_one evmW hashSlowW 0 blockW ([txA] ++ txFailW :: [txB]) = .ok (eb, s) ∧
      execute_one evmW hashSlowW 0 blockW ([txA] ++ [txB]) = .ok (eb', s') ∧
      eb = eb' :=
  execute_one_skips_failing_transaction evmW hashSlowW 0 blockW [txA] [txB] txFailW
    (fun _ _ => ⟨.other 0, rfl⟩)

/-! ### C6: blockHash/range conflict rejection -/

theorem parseAddressList_ok :
    ∀ l : List HexString, (∀ s ∈ l, (parseAddress s).isSome) →
      ∃ as, parseAddressList l = .ok as := by
  intro l
  induction l with
  | nil => intro _; exact ⟨[], rfl⟩
  | cons x xs ih =>
    intro h
    obtain ⟨a, ha⟩ := Option.isSome_iff_exists.mp (h x (List.mem_cons_self x xs))
    obtain ⟨as, has⟩ := ih fun s hs => h s (List.mem_cons_of_mem x hs)
    exact ⟨a :: as, by simp only [parseAddressList, ha, has]⟩

/-- C6 (amended): whenever `blockHash` is present together with `fromBlock` or
`toBlock` (or both) and the `address` parameter validates (in particular when
it is empty), `ValidatedQueryParams::new` fails with the conflict error of
code `-32001` and `get_logs` returns it without executing any query; the bare
block-selection validator `validate_block_id` rejects every such combination
with code `-32001` unconditionally. (When an `address` entry is itself
invalid, the earlier address-validation failure — internal error code — is
reported instead; validation still fails and no query is executed.) -/
theorem validation_conflict_rejection (provider : RpcProvider) (params : GetLogsParameters)
    (bh : HexString)
    (hbh : params.block_hash = some bh)
    (hrange : params.from_block.isSome = true ∨ params.to_block.isSome = true)
    (haddr : ∀ s ∈ params.address, (parseAddress s).isSome) :
    ValidatedQueryParams.new provider params = .error blockIdConflictError ∧
    (∀ runQuery, get_logs provider params runQuery = .error blockIdConflictError) ∧
    (∀ (bh' : HexString) (fb tb : Option String) (resolve : Bool),
      fb.isSome = true ∨ tb.isSome = true →
      validate_block_id provider (some bh') fb tb resolve = .error blockIdConflictError) := by
  have hmain : ValidatedQueryParams.new provider params = .error blockIdConflictError := by
    obtain ⟨addr, bh?, fb, tb, tp⟩ := params
    simp only at hbh hrange haddr
    subst hbh
    obtain ⟨as, has⟩ := parseAddressList_ok addr haddr
    rcases fb with _ | f
    · rcases tb with _ | tbv
      · simp at hrange
      · simp only [ValidatedQueryParams.new, has]
    · simp only [ValidatedQueryParams.new, has]
  refine ⟨hmain, ?_, ?_⟩
  · intro runQuery
    rw [get_logs, hmain]
  · intro bh' fb tb resolve hor
    rcases fb with _ | f
    · rcases tb with _ | tbv
      · simp at hor
      · rfl
    · rfl

/-- Concrete block provider for the C6 statements. -/
def providerW : RpcProvider :=
  { block_by_number_or_tag := fun _ => .ok (some blockW)
    block_by_hash := fun _ => .ok (some blockW) }

/-- `shadow_getLogs` request whose `address` entry is malformed while
`blockHash` and `fromBlock` are both present. -/
def paramsBadAddr : GetLogsParameters :=
  { address := [[1, 1]]
    block_hash := some (toLowerHex64 3)
    from_block := some "latest"
    to_block := none
    topics := none }

/-- C6 counterexample: a request carrying `blockHash` together with
`fromBlock` whose address entry is malformed. Validation fails, but with the
address-validation internal error code, not the `-32001` conflict error the
claim promises for every such request — addresses are validated first. -/
theorem validation_conflict_masked_counterexample :
    paramsBadAddr.block_hash.isSome = true ∧
    paramsBadAddr.from_block.isSome = true ∧
    ValidatedQueryParams.new providerW paramsBadAddr
      = .error { code := INTERNAL_ERROR_CODE, message := "invalid address" } ∧
    INTERNAL_ERROR_CODE ≠ -32001 := by
  refine ⟨rfl, rfl, ?_, by decide⟩
  rfl

/-- A conflicted request whose address entry is well-formed. -/
def paramsConflictW : GetLogsParameters :=
  { address := [toLowerHex40 5]
    block_hash := some (toLowerHex64 3)
    from_block := some "latest"
    to_block := none
    topics := none }

theorem validation_conflict_rejection_witness :
    ValidatedQueryParams.new providerW paramsConflictW = .error blockIdConflictError ∧
    (∀ runQuery, get_logs providerW paramsConflictW runQuery = .error blockIdConflictError) ∧
    (∀ (bh' : HexString) (fb tb : Option String) (resolve : Bool),
      fb.isSome = true ∨ tb.isSome = true →
      validate_block_id providerW (some bh') fb tb resolve = .error blockIdConflictError) :=
  validation_conflict_rejection providerW paramsConflictW (toLowerHex64 3) rfl
    (Or.inl rfl) (by
      intro s hs
      rw [List.mem_singleton.mp hs, parseAddress_toLowerHex40 5 (by norm_num)]
      rfl)

end ShadowReth
